import Mathlib

/-!
Shallow embedding of `mrb.c`, a "magic ring buffer": a circular byte buffer
whose backing pages are mapped twice consecutively, so the byte at linear
address `i` (for `0 ≤ i < 2 * size`) is the logical byte at index `i % size`.

The C struct fields `buff`, `size`, `writer`, `reader` are modelled by
`data` (the logical content, indexed modulo `size`), `size`, `writer`,
`reader`.  All `size_t` arithmetic wraps modulo `sizetMod = 2 ^ 64`
(the LP64 platforms the code targets); the cursor fields are C `int`s that
the code keeps in `[0, size)`, so they are modelled as `Nat`.
-/

/-- Modulus of `size_t` arithmetic on LP64 platforms: `SIZE_MAX + 1 = 2 ^ 64`. -/
def sizetMod : Nat := 2 ^ 64

/-- The `struct mrb` of `mrb.c`:  `buff` becomes the logical-content map
`data` (one byte per index below `size`; linear address `a < 2 * size`
of the double mapping reads and writes `data (a % size)`). -/
structure Mrb where
  size : Nat
  writer : Nat
  reader : Nat
  data : Nat → Nat

/-- Function `mrb_validatesize` of mrb.c: returns `-1` exactly when
`size % pagesize` is nonzero, `0` otherwise (note a size of `0` passes). -/
def mrb_validatesize (pagesize size : Nat) : Int :=
  if size % pagesize ≠ 0 then -1 else 0

/-- Function `mrb_calcsize` of mrb.c: `pagesize * pages`. -/
def mrb_calcsize (pagesize pages : Nat) : Nat :=
  pagesize * pages

/-- State produced by a successful `mrb_init`: both cursors zero and the
backing store zero-filled (the backing `tmpfile` is `ftruncate`d up to
`size`, which zero-fills it). -/
def mrb_init0 (size : Nat) : Mrb :=
  ⟨size, 0, 0, fun _ => 0⟩

/-- Function `mrb_init` of mrb.c up to its decidable part: the size
validation.  The `mmap` calls can also fail at runtime (an OS matter
outside the source, e.g. mapping a zero-length range fails with `EINVAL`);
that failure mode is treated separately via the `0 < size` hypothesis of
`Reachable` below. -/
def mrb_init (pagesize size : Nat) : Option Mrb :=
  if mrb_validatesize pagesize size = 0 then some (mrb_init0 size) else none

/-- Function `mrb_create` of mrb.c: `malloc` (modelled as always
succeeding) followed by `mrb_init`. -/
def mrb_create (pagesize size : Nat) : Option Mrb :=
  mrb_init pagesize size

/-- Function `mrb_size` of mrb.c. -/
def mrb_size (b : Mrb) : Nat :=
  b.size

/-- Function `mrb_available` of mrb.c. -/
def mrb_available (b : Mrb) : Nat :=
  if b.writer < b.reader then b.reader - b.writer - 1
  else b.size - (b.writer - b.reader) - 1

/-- Function `mrb_used` of mrb.c (the C guard is `writer >= reader`). -/
def mrb_used (b : Mrb) : Nat :=
  if b.reader ≤ b.writer then b.writer - b.reader
  else b.size - (b.reader - b.writer)

/-- Function `mrb_isempty` of mrb.c. -/
def mrb_isempty (b : Mrb) : Bool :=
  b.reader == b.writer

/-- Function `mrb_isfull` of mrb.c. -/
def mrb_isfull (b : Mrb) : Bool :=
  b.size == mrb_used b + 1

/-- A `memcpy` into the mirrored mapping starting at linear address `p`:
byte `j` of the list lands at logical index `(p + j) % size`, written in
ascending address order. -/
def writeBytes (size : Nat) (d : Nat → Nat) (p : Nat) : List Nat → (Nat → Nat)
  | [] => d
  | x :: xs => writeBytes size (fun i => if i = p % size then x else d i) (p + 1) xs

/-- A `memcpy` out of the mirrored mapping: the `n` bytes at linear
addresses `p, p+1, …`, i.e. logical indices `(p + j) % size`. -/
def readBytes (b : Mrb) (p n : Nat) : List Nat :=
  (List.range n).map fun j => b.data ((p + j) % b.size)

/-- Function `mrb_put` of mrb.c: copies `min (length, available)` bytes in
at `writer` and advances `writer` by that amount modulo `size`; returns
the amount. -/
def mrb_put (b : Mrb) (source : List Nat) : Nat × Mrb :=
  let amount := min source.length (mrb_available b)
  (amount,
    { b with
      data := writeBytes b.size b.data b.writer (source.take amount)
      writer := (b.writer + amount) % b.size })

/-- Function `mrb_putall` of mrb.c: all-or-nothing variant of `mrb_put`. -/
def mrb_putall (b : Mrb) (source : List Nat) : Int × Mrb :=
  if source.length > mrb_available b then (-1, b)
  else
    (0,
      { b with
        data := writeBytes b.size b.data b.writer source
        writer := (b.writer + source.length) % b.size })

/-- Function `mrb_get` of mrb.c: copies `min (n, used)` bytes out at
`reader` (returned here as the list component) and advances `reader`. -/
def mrb_get (b : Mrb) (n : Nat) : (List Nat × Nat) × Mrb :=
  let amount := min n (mrb_used b)
  ((readBytes b b.reader amount, amount),
    { b with reader := (b.reader + amount) % b.size })

/-- Function `mrb_softget` of mrb.c.  The C body computes, in `size_t`
arithmetic, `amount = MIN(n + off, used)` and then copies and returns
`amount - off`; both the addition and the subtraction wrap modulo
`sizetMod`, which the definition reproduces faithfully. -/
def mrb_softget (b : Mrb) (n off : Nat) : (List Nat × Nat) × Mrb :=
  let amount := min ((n + off) % sizetMod) (mrb_used b)
  let count := (sizetMod + amount - off % sizetMod) % sizetMod
  ((readBytes b (b.reader + off) count, count), b)

/-- Function `mrb_skip` of mrb.c. -/
def mrb_skip (b : Mrb) (n : Nat) : Int × Mrb :=
  if mrb_used b < n then (-1, b)
  else (0, { b with reader := (b.reader + n) % b.size })

/-- Function `mrb_rollback` of mrb.c.  The C body computes
`(b->reader - size) % b->size` where `reader` is promoted to `size_t`, so
the subtraction wraps modulo `sizetMod` before the reduction modulo the
capacity; the definition reproduces that exactly (`reader < sizetMod`
always holds for the C `int` field). -/
def mrb_rollback (b : Mrb) (n : Nat) : Int × Mrb :=
  if mrb_used b > n then (-1, b)
  else (0, { b with reader := ((sizetMod + b.reader - n % sizetMod) % sizetMod) % b.size })

/-- Function `mrb_getmin` of mrb.c. -/
def mrb_getmin (b : Mrb) (minsize maxsize : Nat) : (Int × List Nat) × Mrb :=
  if minsize > mrb_used b then ((-1, []), b)
  else
    let amount := min maxsize (mrb_used b)
    ((amount, readBytes b b.reader amount),
      { b with reader := (b.reader + amount) % b.size })

/-- Function `mrb_readin` of mrb.c.  `input` models the byte sequence the
descriptor has to offer; the single `read(2)` call transfers at most
`amount = min n available` of it and its return value is the number of
bytes delivered (the negative-errno case leaves the state unchanged just
like the zero case modelled here). -/
def mrb_readin (b : Mrb) (input : List Nat) (n : Nat) : Int × Mrb :=
  let amount := min n (mrb_available b)
  let delivered := input.take amount
  let res := delivered.length
  if 0 < res then
    (res,
      { b with
        data := writeBytes b.size b.data b.writer delivered
        writer := (b.writer + res) % b.size })
  else (0, b)

/-- Function `mrb_vprint` of mrb.c.  `rendered` is the full formatted text
the format/arguments pair renders to.  Per the C semantics of
`vsnprintf(dst, n, …)`: with `n = available`, at most `n - 1` characters
plus a terminating NUL are stored (nothing when `n = 0`), and the return
value is the length the whole rendering would have had.  The code then
advances `writer` by that return value whenever it is positive. -/
def mrb_vprint (b : Mrb) (rendered : List Nat) : Int × Mrb :=
  let n := mrb_available b
  let written : Int := rendered.length
  let stored := rendered.take (n - 1)
  let d := if n = 0 then b.data else writeBytes b.size b.data b.writer (stored ++ [0])
  if 0 < written then
    (written, { b with data := d, writer := (b.writer + rendered.length) % b.size })
  else (written, { b with data := d })

/-- Function `mrb_print` of mrb.c: the varargs wrapper around `mrb_vprint`. -/
def mrb_print (b : Mrb) (rendered : List Nat) : Int × Mrb :=
  mrb_vprint b rendered

/-- Function `mrb_writeout` of mrb.c.  `accepted` models how many bytes the
descriptor accepts; the single `write(2)` call transfers at most
`amount = min n used` and returns the number accepted. -/
def mrb_writeout (b : Mrb) (accepted n : Nat) : Int × Mrb :=
  let amount := min n (mrb_used b)
  let res := min accepted amount
  if 0 < res then (res, { b with reader := (b.reader + res) % b.size })
  else (res, b)

/-- The `memmem(hay, haylen, needle, needlelen)` call of mrb.c: index of
the first occurrence of `needle` inside `hay`, if any. -/
def listFind (hay needle : List Nat) : Option Nat :=
  (List.range (hay.length + 1 - needle.length)).find? fun m =>
    (hay.drop m).take needle.length == needle

/-- Function `mrb_search` of mrb.c: after rejecting an empty needle and
`start ≥ used`, it clamps `limit` to `used` (taking `used` itself when
`limit ≤ 0`) and runs `memmem` on the `limit` bytes at linear address
`reader + start`; a hit at window index `m` returns `start + m`. -/
def mrb_search (b : Mrb) (needle : List Nat) (start : Nat) (limit : Int) : Int :=
  if needle.length = 0 then -1
  else
    let used := mrb_used b
    if start ≥ used then -1
    else
      let lim : Nat := if limit ≤ 0 then used else min limit.toNat used
      match listFind (readBytes b (b.reader + start) lim) needle with
      | none => -1
      | some m => (start : Int) + m

/-- Modelled from the spec: the search the specification describes, whose
window is `used - start` bytes (the rest of the used region) when
`limit ≤ 0` or `limit > used`, and exactly `limit` bytes otherwise.
Kept separate, under its own name, to compare against `mrb_search`. -/
def mrb_searchSpec (b : Mrb) (needle : List Nat) (start : Nat) (limit : Int) : Int :=
  if needle.length = 0 then -1
  else
    let used := mrb_used b
    if start ≥ used then -1
    else
      let window : Nat :=
        if limit ≤ 0 ∨ (used : Int) < limit then used - start else limit.toNat
      match listFind (readBytes b (b.reader + start) window) needle with
      | none => -1
      | some m => (start : Int) + m

/-- One mutating call on the buffer; the payload of each constructor is
the caller- or environment-supplied input of that call (for `readin`,
`vprint` and `writeout` the bytes the descriptor or formatter supplies). -/
inductive Op where
  | put (source : List Nat)
  | putall (source : List Nat)
  | get (n : Nat)
  | softget (n off : Nat)
  | skip (n : Nat)
  | rollback (n : Nat)
  | getmin (minsize maxsize : Nat)
  | readin (input : List Nat) (n : Nat)
  | vprint (rendered : List Nat)
  | writeout (accepted n : Nat)
  | search (needle : List Nat) (start : Nat) (limit : Int)

/-- State reached after one operation (`mrb_softget` and `mrb_search`
never assign to the struct, so they keep the state). -/
def applyOp (b : Mrb) : Op → Mrb
  | .put source => (mrb_put b source).2
  | .putall source => (mrb_putall b source).2
  | .get n => (mrb_get b n).2
  | .softget n off => (mrb_softget b n off).2
  | .skip n => (mrb_skip b n).2
  | .rollback n => (mrb_rollback b n).2
  | .getmin minsize maxsize => (mrb_getmin b minsize maxsize).2
  | .readin input n => (mrb_readin b input n).2
  | .vprint rendered => (mrb_vprint b rendered).2
  | .writeout accepted n => (mrb_writeout b accepted n).2
  | .search _ _ _ => b

/-- State reached after a sequence of operations. -/
def applyOps (b : Mrb) (ops : List Op) : Mrb :=
  ops.foldl applyOp b

/-- Well-formedness of a buffer state: positive capacity and both cursors
in range, exactly the shape every state of the running C program has. -/
def mrb_wf (b : Mrb) : Prop :=
  0 < b.size ∧ b.reader < b.size ∧ b.writer < b.size

instance (b : Mrb) : Decidable (mrb_wf b) := by
  unfold mrb_wf; infer_instance

/-- Buffer states reachable from a successful creation by any sequence of
operations.  Creation succeeds only when the size validation passes and
the mappings succeed; mapping a zero-length range fails (`EINVAL`), hence
`0 < size`. -/
def Reachable (pagesize : Nat) (b : Mrb) : Prop :=
  ∃ size ops, 0 < size ∧ mrb_init pagesize size = some (mrb_init0 size) ∧
    applyOps (mrb_init0 size) ops = b

/-! ## Helper lemmas -/

/-- Arithmetic core of the used/available bookkeeping: on any well-formed
state the two derived quantities sum to one less than the capacity. -/
lemma used_add_available (b : Mrb) (h : mrb_wf b) :
    mrb_used b + mrb_available b = b.size - 1 := by
  obtain ⟨h0, hr, hw⟩ := h
  unfold mrb_used mrb_available
  split_ifs <;> omega

/-- Every operation keeps the state well-formed: each cursor assignment in
mrb.c ends in `% b->size`. -/
lemma wf_applyOp (b : Mrb) (op : Op) (h : mrb_wf b) : mrb_wf (applyOp b op) := by
  obtain ⟨h0, hr, hw⟩ := h
  cases op <;>
    simp only [applyOp, mrb_put, mrb_putall, mrb_get, mrb_softget, mrb_skip,
      mrb_rollback, mrb_getmin, mrb_readin, mrb_vprint, mrb_writeout, mrb_wf] <;>
    (try split_ifs) <;>
    exact ⟨h0,
      by first | exact hr | exact Nat.mod_lt _ h0,
      by first | exact hw | exact Nat.mod_lt _ h0⟩

/-- Operation sequences keep the state well-formed. -/
lemma wf_applyOps (ops : List Op) (b : Mrb) (h : mrb_wf b) : mrb_wf (applyOps b ops) := by
  induction ops generalizing b with
  | nil => exact h
  | cons op ops ih => exact ih _ (wf_applyOp b op h)

/-- Every reachable state is well-formed. -/
lemma wf_reachable (pagesize : Nat) (b : Mrb) (h : Reachable pagesize b) : mrb_wf b := by
  obtain ⟨size, ops, hpos, -, rfl⟩ := h
  exact wf_applyOps ops _ ⟨hpos, hpos, hpos⟩

/-- A mirrored-mapping `memcpy` leaves every logical index it does not
cover unchanged. -/
lemma writeBytes_untouched (size : Nat) (l : List Nat) (d : Nat → Nat) (p q : Nat)
    (h : ∀ j, j < l.length → (p + j) % size ≠ q) :
    writeBytes size d p l q = d q := by
  induction l generalizing d p with
  | nil => rfl
  | cons x xs ih =>
      simp only [writeBytes]
      rw [ih _ _ (fun j hj => by
        have := h (j + 1) (by simpa using Nat.succ_lt_succ hj)
        simpa [Nat.add_assoc, Nat.add_comm 1 j] using this)]
      have h0 := h 0 (by simp)
      simp only [Nat.add_zero] at h0
      show (if q = p % size then x else d q) = d q
      exact if_neg (fun hq => h0 hq.symm)

/-- Reading back a mirrored-mapping `memcpy`: when at most `size` bytes
were written starting at `p`, logical index `(p + i) % size` holds byte
`i` of the written list. -/
lemma writeBytes_get (size : Nat) (l : List Nat) (d : Nat → Nat) (p i : Nat)
    (hi : i < l.length) (hl : l.length ≤ size) :
    writeBytes size d p l ((p + i) % size) = l.get ⟨i, hi⟩ := by
  induction l generalizing d p i with
  | nil => simp at hi
  | cons x xs ih =>
      cases i with
      | zero =>
          simp only [writeBytes, Nat.add_zero, List.get]
          rw [writeBytes_untouched]
          · simp
          · intro j hj hcontra
            have hmod : (p + 1 + j) % size = p % size := hcontra
            have hsz : 0 < size := by
              have : 0 < xs.length + 1 := Nat.succ_pos _
              omega
            have hlt : 1 + j < size := by
              simp only [List.length_cons] at hl
              omega
            have : (p + (1 + j)) % size = (p + 0) % size := by
              rw [Nat.add_zero]
              rw [← Nat.add_assoc]
              exact hmod
            have hmodeq : Nat.ModEq size (1 + j) 0 :=
              Nat.ModEq.add_left_cancel' p this
            have : (1 + j) % size = 0 := by
              simpa [Nat.ModEq] using hmodeq
            rw [Nat.mod_eq_of_lt hlt] at this
            omega
      | succ i' =>
          simp only [writeBytes]
          have : p + (i' + 1) = (p + 1) + i' := by omega
          rw [this]
          have hi' : i' < xs.length := by simpa using Nat.lt_of_succ_lt_succ hi
          rw [ih _ _ i' hi' (by simp only [List.length_cons] at hl; omega)]
          rfl

/-! ## Concrete states used by witnesses and counterexamples -/

/-- Concrete well-formed state: capacity one page, three bytes in flight. -/
def bufA : Mrb := ⟨4096, 3, 0, fun _ => 0⟩

/-! ## Claim theorems -/

/-- C1: for every buffer reachable from creation by any sequence of the
operations (put, putAll, get, softGet, skip, rollback, getMin, readInto,
writeFrom, printf, search), `used(b) + available(b) = capacity(b) - 1`. -/
theorem mrb_used_add_available_inv (pagesize : Nat) (b : Mrb)
    (h : Reachable pagesize b) :
    mrb_used b + mrb_available b = b.size - 1 :=
  used_add_available b (wf_reachable pagesize b h)

theorem mrb_used_add_available_inv_witness :
    Reachable 4096 (applyOps (mrb_init0 4096) [Op.put [7, 8], Op.get 1]) ∧
    mrb_used (applyOps (mrb_init0 4096) [Op.put [7, 8], Op.get 1]) +
      mrb_available (applyOps (mrb_init0 4096) [Op.put [7, 8], Op.get 1]) =
      (applyOps (mrb_init0 4096) [Op.put [7, 8], Op.get 1]).size - 1 :=
  ⟨⟨4096, [Op.put [7, 8], Op.get 1], by decide, rfl, rfl⟩,
    mrb_used_add_available_inv 4096 _ ⟨4096, [Op.put [7, 8], Op.get 1], by decide, rfl, rfl⟩⟩

/-- C2: every buffer reachable from creation by any operation sequence
(rollback included) keeps both cursors inside `[0, capacity)`; the lower
bounds hold because the cursors are naturals in the model (the C `int`
fields are only ever assigned results of `% b->size`). -/
theorem mrb_cursors_in_range (pagesize : Nat) (b : Mrb)
    (h : Reachable pagesize b) :
    b.reader < b.size ∧ b.writer < b.size :=
  (wf_reachable pagesize b h).2

theorem mrb_cursors_in_range_witness :
    Reachable 4096 (applyOps (mrb_init0 4096) [Op.put [1, 2, 3], Op.rollback 3]) ∧
    ((applyOps (mrb_init0 4096) [Op.put [1, 2, 3], Op.rollback 3]).reader <
        (applyOps (mrb_init0 4096) [Op.put [1, 2, 3], Op.rollback 3]).size ∧
      (applyOps (mrb_init0 4096) [Op.put [1, 2, 3], Op.rollback 3]).writer <
        (applyOps (mrb_init0 4096) [Op.put [1, 2, 3], Op.rollback 3]).size) :=
  ⟨⟨4096, [Op.put [1, 2, 3], Op.rollback 3], by decide, rfl, rfl⟩,
    mrb_cursors_in_range 4096 _ ⟨4096, [Op.put [1, 2, 3], Op.rollback 3], by decide, rfl, rfl⟩⟩

/-- C5 counterexample: the claim says creation fails with `InvalidSize`
when the capacity is zero, but `mrb_validatesize` accepts 0 (because
`0 % pagesize = 0`), so `mrb_create`'s size validation succeeds at
pagesize 4096, capacity 0, and the claimed equivalence is false there. -/
theorem mrb_create_zero_passes_validation :
    mrb_validatesize 4096 0 = 0 ∧
    mrb_create 4096 0 = some (mrb_init0 0) ∧
    ¬((mrb_validatesize 4096 0 = -1) ↔ (0 = 0 ∨ 0 % 4096 ≠ 0)) := by
  refine ⟨rfl, rfl, fun hiff => ?_⟩
  have h1 : mrb_validatesize 4096 0 = -1 := hiff.mpr (Or.inl rfl)
  have h2 : mrb_validatesize 4096 0 = 0 := rfl
  rw [h2] at h1
  exact absurd h1 (by decide)

/-- C5 amended: creation fails with `InvalidSize` exactly when the
capacity is not a multiple of the page size; capacity 0 is a multiple of
every page size, so it passes validation (the creation of a zero-size
buffer still fails, but at the zero-length `mmap`, i.e. as a
MappingFailure outside the validated source path). -/
theorem mrb_create_invalidsize_iff (pagesize size : Nat) :
    (mrb_create pagesize size = none ↔ size % pagesize ≠ 0) ∧
    (mrb_validatesize pagesize size = -1 ↔ size % pagesize ≠ 0) := by
  by_cases h : size % pagesize = 0
  · refine ⟨?_, ?_⟩ <;> norm_num [mrb_create, mrb_init, mrb_validatesize, h]
    exact Option.some_ne_none _
  · norm_num [mrb_create, mrb_init, mrb_validatesize, h]

/-- C9: `softGet` with `offset ≤ used(b)` leaves reader, writer, the
content, `used` and `available` unchanged, and calling it again returns
the same answer (the C function never assigns to the struct). -/
theorem mrb_softget_frame (b : Mrb) (n off : Nat) (h : off ≤ mrb_used b) :
    (mrb_softget b n off).2.reader = b.reader ∧
    (mrb_softget b n off).2.writer = b.writer ∧
    (mrb_softget b n off).2.data = b.data ∧
    mrb_used (mrb_softget b n off).2 = mrb_used b ∧
    mrb_available (mrb_softget b n off).2 = mrb_available b ∧
    (mrb_softget b n off).2 = b ∧
    mrb_softget (mrb_softget b n off).2 n off = mrb_softget b n off :=
  ⟨rfl, rfl, rfl, rfl, rfl, rfl, rfl⟩

theorem mrb_softget_frame_witness :
    1 ≤ mrb_used bufA ∧ (mrb_softget bufA 2 1).2 = bufA :=
  ⟨by decide, (mrb_softget_frame bufA 2 1 (by decide)).2.2.2.2.2.1⟩

/-- Available space is always below the capacity on a well-formed state. -/
lemma available_lt_size (b : Mrb) (h : mrb_wf b) : mrb_available b < b.size := by
  obtain ⟨h0, hr, hw⟩ := h
  unfold mrb_available
  split_ifs <;> omega

/-- Concrete well-formed state whose free space is 5 bytes and whose free
region straddles the wrap point. -/
def bufB : Mrb := ⟨4096, 4090, 0, fun _ => 0⟩

/-- C3: `putAll` is atomic: with `len ≤ available(b)` it succeeds, copies
all `len` bytes in at `writer` and advances `writer` by exactly `len`
modulo the capacity; with `len > available(b)` it returns the
InsufficientSpace code `-1` and changes nothing. -/
theorem mrb_putall_atomic (b : Mrb) (source : List Nat) (hwf : mrb_wf b) :
    (source.length ≤ mrb_available b →
      (mrb_putall b source).1 = 0 ∧
      (mrb_putall b source).2.writer = (b.writer + source.length) % b.size ∧
      (mrb_putall b source).2.reader = b.reader ∧
      ∀ i (hi : i < source.length),
        (mrb_putall b source).2.data ((b.writer + i) % b.size) = source.get ⟨i, hi⟩) ∧
    (mrb_available b < source.length →
      (mrb_putall b source).1 = -1 ∧ (mrb_putall b source).2 = b) := by
  constructor
  · intro hle
    have hnot : ¬ source.length > mrb_available b := not_lt.mpr hle
    simp only [mrb_putall, if_neg hnot]
    refine ⟨trivial, trivial, trivial, fun i hi => ?_⟩
    exact writeBytes_get b.size source b.data b.writer i hi
      (le_of_lt (lt_of_le_of_lt hle (available_lt_size b hwf)))
  · intro hgt
    simp only [mrb_putall, if_pos hgt]
    exact ⟨trivial, trivial⟩

theorem mrb_putall_atomic_witness :
    mrb_wf bufB ∧ [1, 2, 3].length ≤ mrb_available bufB ∧
    (mrb_putall bufB [1, 2, 3]).1 = 0 ∧
    (mrb_putall bufB [1, 2, 3]).2.writer = (bufB.writer + [1, 2, 3].length) % bufB.size := by
  have h := (mrb_putall_atomic bufB [1, 2, 3] (by decide)).1 (by decide)
  exact ⟨by decide, by decide, h.1, h.2.1⟩

/-- Concrete state that already holds one byte (value 7): capacity 4096,
reader 0, writer 1. -/
def bufC : Mrb := ⟨4096, 1, 0, fun i => if i = 0 then 7 else 0⟩

/-- C4 counterexample: on a buffer that already holds a byte, `put` of a
one-byte sequence followed by `get` of one byte returns the *oldest*
byte, not the byte just put, so the claim fails at `bufC` with source
`[5]` (the length 1 is within the available space). -/
theorem mrb_put_get_roundtrip_ce :
    1 ≤ mrb_available bufC ∧
    (mrb_get (mrb_put bufC [5]).2 1).1.1 = [7] ∧
    (mrb_get (mrb_put bufC [5]).2 1).1.1 ≠ [5] := by decide

/-- Modular value of a cursor advanced by less than the capacity: either
no wrap or a single wrap. -/
lemma advance_mod (size w k : Nat) (h0 : 0 < size) (hw : w < size) (hk : k < size) :
    ((w + k) % size = w + k ∧ w + k < size) ∨
    ((w + k) % size = w + k - size ∧ size ≤ w + k) := by
  rcases Nat.lt_or_ge (w + k) size with hlt | hge
  · exact Or.inl ⟨Nat.mod_eq_of_lt hlt, hlt⟩
  · refine Or.inr ⟨?_, hge⟩
    rw [Nat.mod_eq_sub_mod hge]
    exact Nat.mod_eq_of_lt (by omega)

/-- C4 amended: the round trip holds on every *empty* buffer (reader and
writer equal, at any position, so the put data may straddle the wrap
point): putting a sequence of length at most `available(b)` and then
getting that many bytes returns exactly the sequence. -/
theorem mrb_put_get_roundtrip (b : Mrb) (source : List Nat) (hwf : mrb_wf b)
    (hempty : b.reader = b.writer) (hlen : source.length ≤ mrb_available b) :
    (mrb_get (mrb_put b source).2 source.length).1.1 = source ∧
    (mrb_get (mrb_put b source).2 source.length).1.2 = source.length := by
  obtain ⟨h0, hr, hw⟩ := hwf
  have hn : source.length < b.size :=
    lt_of_le_of_lt hlen (available_lt_size b ⟨h0, hr, hw⟩)
  have hmin : min source.length (mrb_available b) = source.length := Nat.min_eq_left hlen
  have hdata : (mrb_put b source).2.data = writeBytes b.size b.data b.writer source := by
    show writeBytes b.size b.data b.writer
        (source.take (min source.length (mrb_available b))) =
      writeBytes b.size b.data b.writer source
    rw [hmin, List.take_length]
  have hused : mrb_used (mrb_put b source).2 = source.length := by
    show (if b.reader ≤ (b.writer + min source.length (mrb_available b)) % b.size then
        (b.writer + min source.length (mrb_available b)) % b.size - b.reader
      else b.size - (b.reader - (b.writer + min source.length (mrb_available b)) % b.size)) =
      source.length
    rw [hmin]
    rcases advance_mod b.size b.writer source.length h0 hw hn with ⟨heq, hb⟩ | ⟨heq, hb⟩ <;>
      rw [heq] <;> split_ifs <;> omega
  have hamount : min source.length (mrb_used (mrb_put b source).2) = source.length := by
    rw [hused, Nat.min_self]
  constructor
  · show readBytes (mrb_put b source).2 (mrb_put b source).2.reader
        (min source.length (mrb_used (mrb_put b source).2)) = source
    rw [hamount]
    apply List.ext_getElem
    · simp [readBytes]
    · intro i h1 h2
      simp only [readBytes, List.getElem_map, List.getElem_range]
      rw [hdata]
      show writeBytes b.size b.data b.writer source ((b.reader + i) % b.size) = source[i]
      rw [hempty, writeBytes_get b.size source b.data b.writer i h2 (le_of_lt hn)]
      exact List.get_eq_getElem source ⟨i, h2⟩
  · show min source.length (mrb_used (mrb_put b source).2) = source.length
    exact hamount

/-- Concrete empty state with both cursors near the wrap point. -/
def bufD : Mrb := ⟨4096, 4090, 4090, fun _ => 0⟩

theorem mrb_put_get_roundtrip_witness :
    mrb_wf bufD ∧ bufD.reader = bufD.writer ∧
    [1, 2, 3, 4, 5, 6, 7, 8, 9, 10].length ≤ mrb_available bufD ∧
    (mrb_get (mrb_put bufD [1, 2, 3, 4, 5, 6, 7, 8, 9, 10]).2
        [1, 2, 3, 4, 5, 6, 7, 8, 9, 10].length).1.1 = [1, 2, 3, 4, 5, 6, 7, 8, 9, 10] :=
  ⟨by decide, rfl, by decide,
    (mrb_put_get_roundtrip bufD [1, 2, 3, 4, 5, 6, 7, 8, 9, 10] (by decide) rfl (by decide)).1⟩

/-- Concrete state with two used bytes `[1, 2]` ahead of reader 0 and a
stale byte 9 at logical index 2, just past the used region. -/
def bufE : Mrb := ⟨4096, 2, 0, fun i => if i = 0 then 1 else if i = 1 then 2 else if i = 2 then 9 else 0⟩

/-- C6 (code bug): with `limit ≤ 0` the code clamps the window length to
`used` but still starts it at `reader + start`, so it scans `start` bytes
past the end of the used region.  Here `used = 2`, `start = 1`: the code
scans indices 1 and 2, finds the stale byte 9 at offset 2 — an offset at
the writer itself, outside the used data — while the window described by
the spec (`used - start = 1` byte) holds no 9, so the search should
report NotFound (`-1`). -/
theorem mrb_search_overruns_used_region :
    mrb_used bufE = 2 ∧
    mrb_search bufE [9] 1 0 = 2 ∧
    mrb_searchSpec bufE [9] 1 0 = -1 := by decide

/-- Concrete state with 2 bytes of available space. -/
def bufF : Mrb := ⟨4096, 4093, 0, fun _ => 0⟩

/-- C7 (code bug): `mrb_vprint` advances `writer` by `vsnprintf`'s return
value, which is the length the *whole* rendering would have had, not the
number of characters stored.  With `available = 2` and a 5-character
rendering, only `min 5 (2 - 1) = 1` character fits, so the claim predicts
`writer = 4094`, but the code moves `writer` to `(4093 + 5) % 4096 = 2` —
an advance of 5 > available. -/
theorem mrb_vprint_writer_overadvance :
    mrb_available bufF = 2 ∧
    (mrb_vprint bufF [104, 101, 108, 108, 111]).1 = 5 ∧
    (mrb_vprint bufF [104, 101, 108, 108, 111]).2.writer = 2 ∧
    (bufF.writer + min [104, 101, 108, 108, 111].length (mrb_available bufF - 1)) % bufF.size
      = 4094 ∧
    (2 : Nat) ≠ 4094 := by decide

/-- Concrete freshly created state of capacity 12288 = 3 pages of 4096
(`mrb_validatesize` accepts it, as the conjunct below records). -/
def bufG : Mrb := ⟨12288, 0, 0, fun _ => 0⟩

/-- C8 (code bug): the failure bound matches the claim (`used > len`
rejects, otherwise success), but the successful branch computes
`(reader - len) % capacity` in `size_t`, i.e. modulo `2^64` first. That
is only congruent to moving backward modulo the capacity when the
capacity divides `2^64`.  With the legal capacity 12288 (3 pages),
reader 0 and `len = 1`, the code lands on `(2^64 - 1) % 12288 = 4095`
instead of the claimed `(0 - 1) mod 12288 = 12287`. -/
theorem mrb_rollback_wrap_bug :
    mrb_validatesize 4096 12288 = 0 ∧
    (mrb_rollback bufG 1).1 = 0 ∧
    (mrb_rollback bufG 1).2.reader = 4095 ∧
    (bufG.reader + bufG.size - 1) % bufG.size = 12287 ∧
    (4095 : Nat) ≠ 12287 := by decide

/-- Concrete state with 5 used bytes. -/
def bufH : Mrb := ⟨4096, 5, 0, fun _ => 0⟩

/-- C10 counterexample: the claim's formula `(used - offset) mod 2^64`
fails for calls where `len + offset` itself wraps in `size_t`: with
`used = 5`, `offset = 10` and `len = 2^64 - 10`, `len + offset` wraps to
0, so the code computes `min 0 5 - 10 = 2^64 - 10`, not the claimed
`(5 - 10) mod 2^64 = 2^64 - 5`. -/
theorem mrb_softget_underflow_ce :
    mrb_used bufH < 10 ∧
    (mrb_softget bufH (sizetMod - 10) 10).1.2 = sizetMod - 10 ∧
    (mrb_softget bufH (sizetMod - 10) 10).1.2 ≠ (sizetMod + mrb_used bufH - 10) % sizetMod := by
  decide

/-- C10 amended: for every call with `offset > used(b)`, where `offset`
is a `size_t` value and `len + offset` does not itself wrap in `size_t`,
the computed length `min(len + offset, used) - offset` underflows and the
reported byte count equals `(used(b) - offset) mod 2^64 =
2^64 - (offset - used(b))`, an enormous value, so the copy is not bounded
by `used(b)`. -/
theorem mrb_softget_underflow (b : Mrb) (n off : Nat) (h1 : mrb_used b < off)
    (h2 : off < sizetMod) (h3 : n + off < sizetMod) :
    (mrb_softget b n off).1.2 = sizetMod - (off - mrb_used b) := by
  show (sizetMod + min ((n + off) % sizetMod) (mrb_used b) - off % sizetMod) % sizetMod = _
  rw [Nat.mod_eq_of_lt h3, Nat.mod_eq_of_lt h2,
    Nat.min_eq_right (le_of_lt (lt_of_lt_of_le h1 (Nat.le_add_left off n))),
    Nat.mod_eq_of_lt (by omega)]
  omega

/-- Concrete empty state for the softGet-underflow witness. -/
def bufI : Mrb := ⟨4096, 0, 0, fun _ => 0⟩

theorem mrb_softget_underflow_witness :
    mrb_used bufI < 1 ∧ 1 < sizetMod ∧ 0 + 1 < sizetMod ∧
    (mrb_softget bufI 0 1).1.2 = sizetMod - (1 - mrb_used bufI) :=
  ⟨by decide, by decide, by decide,
    mrb_softget_underflow bufI 0 1 (by decide) (by decide) (by decide)⟩
